import Mathlib

/-!
Verification of the Divination module's request/response adapter.

The definitions below are a shallow embedding of the JavaScript source:
  - `truncateMessageHistory` (utils.js)
  - `sendMessage` and `replaceTemplateVariables` (api.js)
JavaScript strings are modelled as `List Char` / `String`, JavaScript
values (results of `JSON.parse`, receivers of member access) as `JsV`,
and the built-in functions used by the source (`Array.prototype.slice`,
`String.prototype.replace` with `$`-substitution patterns, `split`,
`join`, `trim`, `JSON.parse`, `JSON.stringify`) are modelled explicitly.
-/

namespace Divination

/-- JavaScript whitespace (the set matched by `\s` and removed by
`String.prototype.trim`): ASCII whitespace, NBSP, the Unicode space
separators, line/paragraph separators and the BOM. -/
def isJsWs (c : Char) : Bool :=
  c = ' ' ∨ c = '\t' ∨ c = '\n' ∨ c = '\r' ∨ c.toNat = 0x0b ∨ c.toNat = 0x0c ∨
  c.toNat = 0xa0 ∨ c.toNat = 0x1680 ∨ (0x2000 ≤ c.toNat ∧ c.toNat ≤ 0x200a) ∨
  c.toNat = 0x2028 ∨ c.toNat = 0x2029 ∨ c.toNat = 0x202f ∨ c.toNat = 0x205f ∨
  c.toNat = 0x3000 ∨ c.toNat = 0xfeff

/-- Model of `String.prototype.trim` on character lists. -/
def jsTrim (l : List Char) : List Char :=
  ((l.dropWhile isJsWs).reverse.dropWhile isJsWs).reverse

/-- Model of `String.prototype.trim`. -/
def jsTrimS (s : String) : String :=
  String.mk (jsTrim s.data)

/-- Index of the first occurrence of `pat` as a contiguous substring of `l`
(`none` when absent).  This is the search both `String.prototype.replace`,
`split` and `includes` perform. -/
def findSub (pat : List Char) : List Char → Option Nat
  | [] => if pat = [] then some 0 else none
  | c :: rest =>
    if pat.isPrefixOf (c :: rest) then some 0
    else (findSub pat rest).map (· + 1)

/-- Model of `String.prototype.includes`. -/
def containsSub (l pat : List Char) : Bool :=
  (findSub pat l).isSome

/-- Model of `Array.prototype.slice(start)` (one argument): a negative
start counts from the end, clamped at 0; a nonnegative start is clamped
at the length.  `-1 * 0` is `-0` in JavaScript, which behaves exactly
like `slice(0)`, so the `Int` model is faithful. -/
def jsSlice {α : Type} (l : List α) (start : Int) : List α :=
  let s : Int := if start < 0 then max ((l.length : Int) + start) 0
                 else min start (l.length : Int)
  l.drop s.toNat

/-- One conversational turn `{role, content}`. -/
structure Turn where
  role : String
  content : String
deriving DecidableEq, Repr

/-- Core of `truncateMessageHistory` (utils.js lines 65-78), acting on an
actual array.  `find` keeps the first turn whose role is "system",
`filter` removes every system turn, and `slice` keeps the most recent
entries. -/
def truncList (messages : List Turn) (maxLength : Int) : List Turn :=
  if (messages.length : Int) ≤ maxLength then messages
  else
    match messages.find? (fun m => m.role = "system") with
    | some systemMessage =>
      let otherMessages := messages.filter (fun m => ¬ m.role = "system")
      systemMessage :: jsSlice otherMessages (-1 * (maxLength - 1))
    | none => jsSlice messages (-1 * maxLength)

/-- The JavaScript values (other than an array of turns) that can be
passed as the `messages` argument of `truncateMessageHistory`. -/
inductive NonArrayValue where
  | strV (s : String)
  | numV (q : Rat)
  | boolV (b : Bool)
  | nullV
  | undefV
  | objV (fields : List (String × String))
deriving DecidableEq, Repr

/-- A JavaScript value passed as the `messages` argument: either an
array of turns or any non-array value. -/
inductive HistArg where
  | arr (msgs : List Turn)
  | other (v : NonArrayValue)
deriving DecidableEq, Repr

/-- Model of `truncateMessageHistory` (utils.js lines 63-79) including
the `Array.isArray` guard on line 64, which returns `[]` for any
non-array argument. -/
def truncateMessageHistory (messages : HistArg) (maxLength : Int) : List Turn :=
  match messages with
  | .other _ => []
  | .arr msgs => truncList msgs maxLength

/-- Model of the call site in `sendMessage` (api.js lines 75-78): the
orchestrator only invokes truncation when the configured limit is
positive. -/
def truncateAtCallSite (messages : List Turn) (historyLimit : Int) : List Turn :=
  if 0 < historyLimit then truncList messages historyLimit else messages

/-- A JavaScript value: the possible results of `JSON.parse` plus
`undefined`, which member access can produce. -/
inductive JsV where
  | undefV
  | nullV
  | boolV (b : Bool)
  | numV (q : Rat)
  | strV (s : String)
  | arrV (elems : List JsV)
  | objV (fields : List (String × JsV))
deriving Repr

/-- JavaScript object field update (`o[k] = v`): an existing key keeps
its position, otherwise the key is appended.  `JSON.parse` uses the same
rule for duplicate keys (last value wins). -/
def setField : List (String × JsV) → String → JsV → List (String × JsV)
  | [], k, v => [(k, v)]
  | (k', v') :: rest, k, v =>
    if k' = k then (k', v) :: rest else (k', v') :: setField rest k v

/-- First binding of a key in an object's field list. -/
def lookupField : List (String × JsV) → String → Option JsV
  | [], _ => none
  | (k, v) :: rest, key => if k = key then some v else lookupField rest key

/-- The keys of an object value, in order. -/
def objKeys : JsV → List String
  | .objV fields => fields.map (·.1)
  | _ => []

/-- JSON insignificant whitespace (RFC 8259: space, tab, LF, CR), as
skipped by `JSON.parse`. -/
def skipWs : List Char → List Char
  | [] => []
  | c :: r => if c = ' ' ∨ c = '\t' ∨ c = '\n' ∨ c = '\r' then skipWs r else c :: r

/-- Value of a hexadecimal digit, as accepted in a `\uXXXX` escape. -/
def hexVal (c : Char) : Option Nat :=
  if '0' ≤ c ∧ c ≤ '9' then some (c.toNat - 48)
  else if 'a' ≤ c ∧ c ≤ 'f' then some (c.toNat - 87)
  else if 'A' ≤ c ∧ c ≤ 'F' then some (c.toNat - 55)
  else none

/-- The single-character JSON string escapes. -/
def escMap (e : Char) : Option Char :=
  if e = '"' then some '"'
  else if e = '\\' then some '\\'
  else if e = '/' then some '/'
  else if e = 'b' then some '\x08'
  else if e = 'f' then some '\x0c'
  else if e = 'n' then some '\n'
  else if e = 'r' then some '\r'
  else if e = 't' then some '\t'
  else none

/-- Strict JSON string-literal body parser (the part after the opening
quote), as in `JSON.parse`: raw control characters are rejected, the
eight simple escapes and `\uXXXX` are accepted.  On failure the
remaining input at the point of failure is returned (this models the
error position that `JSON.parse` reports).  Surrogate halves decoded
from `\uXXXX` are mapped through `Char.ofNat`, which is faithful for all
scalar values (the only case exercised here). -/
def parseStrBody : List Char → Except (List Char) (List Char × List Char)
  | [] => .error []
  | '\\' :: 'u' :: a :: b :: c :: d :: r =>
    match hexVal a, hexVal b, hexVal c, hexVal d with
    | some x1, some x2, some x3, some x4 =>
      (parseStrBody r).map
        (fun p => (Char.ofNat (((x1 * 16 + x2) * 16 + x3) * 16 + x4) :: p.1, p.2))
    | _, _, _, _ => .error (a :: b :: c :: d :: r)
  | '\\' :: e :: r =>
    match escMap e with
    | some c => (parseStrBody r).map (fun p => (c :: p.1, p.2))
    | none => .error (e :: r)
  | c :: r =>
    if c = '"' then .ok ([], r)
    else if c.toNat < 0x20 then .error (c :: r)
    else (parseStrBody r).map (fun p => (c :: p.1, p.2))

/-- Numeric value of a list of decimal digits. -/
def digitsVal (l : List Char) : Nat :=
  l.foldl (fun a c => a * 10 + (c.toNat - 48)) 0

/-- Strict JSON number parser (`-? int frac? exp?`, no leading zeros),
yielding the exact rational value. -/
def parseNumber (l : List Char) : Except (List Char) (Rat × List Char) :=
  let (neg, l1) := match l with
    | '-' :: r => (true, r)
    | _ => (false, l)
  match l1 with
  | [] => .error l
  | c :: r =>
    if ¬ c.isDigit then .error l
    else if c = '0' ∧ (match r with | d :: _ => d.isDigit | [] => false : Bool) then .error l
    else
      let (ds, l2) := (c :: r).span Char.isDigit
      let fracPart : Except (List Char) (List Char × List Char) :=
        match l2 with
        | '.' :: r2 =>
          let (fs, r3) := r2.span Char.isDigit
          if fs = [] then .error r2 else .ok (fs, r3)
        | _ => .ok ([], l2)
      match fracPart with
      | .error e => .error e
      | .ok (fs, l3) =>
        let expPart : Except (List Char) (Int × List Char) :=
          match l3 with
          | 'e' :: r4 => parseExpTail r4
          | 'E' :: r4 => parseExpTail r4
          | _ => .ok (0, l3)
        match expPart with
        | .error e => .error e
        | .ok (ex, l4) =>
          let mag : Rat :=
            ((digitsVal ds : Rat) + (digitsVal fs : Rat) / ((10 : Rat) ^ fs.length)) *
              (10 : Rat) ^ ex
          .ok (if neg then -mag else mag, l4)
where
  /-- Exponent tail after `e`/`E`: optional sign then one or more digits. -/
  parseExpTail (r : List Char) : Except (List Char) (Int × List Char) :=
    let (esign, r5) := match r with
      | '+' :: r6 => ((1 : Int), r6)
      | '-' :: r6 => ((-1 : Int), r6)
      | _ => ((1 : Int), r)
    let (es, r7) := r5.span Char.isDigit
    if es = [] then .error r5 else .ok (esign * (digitsVal es : Int), r7)

/-- Member loop of a JSON object (after `{` and leading whitespace, when
the object is not empty).  `pv` parses one value (it is `parseValue` at
the next smaller nesting fuel); the `Nat` fuel is bounded by the length
of the remaining input, which shrinks at every iteration. -/
def parseMembersLoop (pv : List Char → Except (List Char) (JsV × List Char)) :
    Nat → List (String × JsV) → List Char →
    Except (List Char) (List (String × JsV) × List Char)
  | 0, _, l => .error l
  | lf + 1, acc, l =>
    match l with
    | '"' :: r =>
      match parseStrBody r with
      | .error e => .error e
      | .ok (key, r1) =>
        match skipWs r1 with
        | ':' :: r3 =>
          match pv (skipWs r3) with
          | .error e => .error e
          | .ok (v, r4) =>
            let acc' := setField acc (String.mk key) v
            match skipWs r4 with
            | '\x7d' :: r6 => .ok (acc', r6)
            | ',' :: r6 => parseMembersLoop pv lf acc' (skipWs r6)
            | r5 => .error r5
        | r2 => .error r2
    | _ => .error l

/-- Element loop of a JSON array (after `[` and leading whitespace, when
the array is not empty). -/
def parseElemsLoop (pv : List Char → Except (List Char) (JsV × List Char)) :
    Nat → List JsV → List Char → Except (List Char) (List JsV × List Char)
  | 0, _, l => .error l
  | lf + 1, acc, l =>
    match pv l with
    | .error e => .error e
    | .ok (v, r) =>
      match skipWs r with
      | ']' :: r2 => .ok (acc ++ [v], r2)
      | ',' :: r2 => parseElemsLoop pv lf (acc ++ [v]) (skipWs r2)
      | r1 => .error r1

/-- Strict JSON value parser; the `Nat` fuel bounds the nesting depth
and is instantiated with the input length, which always suffices. -/
def parseValue : Nat → List Char → Except (List Char) (JsV × List Char)
  | 0, l => .error l
  | f + 1, l =>
    match l with
    | 't' :: 'r' :: 'u' :: 'e' :: r => .ok (.boolV true, r)
    | 'f' :: 'a' :: 'l' :: 's' :: 'e' :: r => .ok (.boolV false, r)
    | 'n' :: 'u' :: 'l' :: 'l' :: r => .ok (.nullV, r)
    | '"' :: r => (parseStrBody r).map (fun p => (.strV (String.mk p.1), p.2))
    | '\x7b' :: r =>
      match skipWs r with
      | '\x7d' :: r2 => .ok (.objV [], r2)
      | r1 => (parseMembersLoop (parseValue f) (r1.length + 1) [] r1).map
                (fun p => (.objV p.1, p.2))
    | '[' :: r =>
      match skipWs r with
      | ']' :: r2 => .ok (.arrV [], r2)
      | r1 => (parseElemsLoop (parseValue f) (r1.length + 1) [] r1).map
                (fun p => (.arrV p.1, p.2))
    | _ => (parseNumber l).map (fun p => (.numV p.1, p.2))

/-- Model of strict `JSON.parse`: skip leading whitespace, parse one
value, require only whitespace after it.  On failure the 0-based
character position of the failure is returned, mirroring the `position
N` that V8 puts in its `SyntaxError` message. -/
def jsonParseE (s : String) : Except Nat JsV :=
  let l := s.data
  match parseValue (l.length + 1) (skipWs l) with
  | .error rest => .error (l.length - rest.length)
  | .ok (v, rest) =>
    match skipWs rest with
    | [] => .ok v
    | rest' => .error (l.length - rest'.length)

/-- Expansion of special `$` patterns in the replacement string of
`String.prototype.replace` (ECMAScript GetSubstitution): `$$` is a
literal dollar, `$&` the matched substring, a dollar followed by a
backquote the part of the original string before the match, `$'` the
part after it.  With no capture groups in the pattern, `$<digit>` and
every other `$` sequence are literal. -/
def expandRepl (matched before after : List Char) : List Char → List Char
  | [] => []
  | '$' :: '$' :: r => '$' :: expandRepl matched before after r
  | '$' :: '&' :: r => matched ++ expandRepl matched before after r
  | '$' :: c :: r =>
    if c.toNat = 0x60 then before ++ expandRepl matched before after r
    else if c.toNat = 39 then after ++ expandRepl matched before after r
    else '$' :: expandRepl matched before after (c :: r)
  | c :: r => c :: expandRepl matched before after r

/-- Whether a string contains a `$` immediately followed by one of
`$ & backquote '` — exactly the sequences `expandRepl` does not leave
verbatim. -/
def hasDollarPat : List Char → Bool
  | '$' :: c :: r =>
    (c = '$' ∨ c = '&' ∨ c.toNat = 0x60 ∨ c.toNat = 39) || hasDollarPat (c :: r)
  | _ :: r => hasDollarPat r
  | [] => false

/-- Scanner of `String.prototype.replace(new RegExp(lit, 'g'), repl)`
for a literal pattern: scan the original string left to right, replace
each non-overlapping occurrence (resuming after the matched text) by the
`$`-expanded replacement.  Fuel is the remaining scan length. -/
def jsReplaceGo (pat repl orig : List Char) : Nat → Nat → List Char
  | 0, pos => orig.drop pos
  | fuel + 1, pos =>
    match orig.drop pos with
    | [] => []
    | c :: _ =>
      if pat ≠ [] ∧ pat.isPrefixOf (orig.drop pos) then
        expandRepl pat (orig.take pos) (orig.drop (pos + pat.length)) repl ++
          jsReplaceGo pat repl orig fuel (pos + pat.length)
      else c :: jsReplaceGo pat repl orig fuel (pos + 1)

/-- Model of `s.replace(new RegExp(pat, 'g'), repl)` for a literal
pattern `pat` (the patterns built in `replaceTemplateVariables` contain
no regex metacharacters). -/
def jsReplaceAll (s pat repl : String) : String :=
  String.mk (jsReplaceGo pat.data repl.data s.data (s.data.length + 1) 0)

/-- Hexadecimal digit character (lowercase), as produced by
`JSON.stringify` in `\u00XX` escapes. -/
def hexDigitChar (n : Nat) : Char :=
  if n < 10 then Char.ofNat (48 + n) else Char.ofNat (87 + n)

/-- Escape of one character inside a JSON string literal, following
`JSON.stringify`. -/
def escChar (c : Char) : List Char :=
  if c = '"' then ['\\', '"']
  else if c = '\\' then ['\\', '\\']
  else if c = '\x08' then ['\\', 'b']
  else if c = '\x0c' then ['\\', 'f']
  else if c = '\n' then ['\\', 'n']
  else if c = '\r' then ['\\', 'r']
  else if c = '\t' then ['\\', 't']
  else if c.toNat < 0x20 then
    ['\\', 'u', '0', '0', hexDigitChar (c.toNat / 16), hexDigitChar (c.toNat % 16)]
  else [c]

/-- Body of `JSON.stringify` applied to a string (without the outer
quotes). -/
def escBody : List Char → List Char
  | [] => []
  | c :: r => escChar c ++ escBody r

/-- Model of `JSON.stringify(s)` for a string `s`. -/
def jsStringifyString (s : String) : List Char :=
  '"' :: (escBody s.data ++ ['"'])

/-- Model of `.slice(1, -1)` on a string: drop the first and last
character. -/
def sliceInner (l : List Char) : List Char :=
  (l.drop 1).dropLast

/-- Separator-join of string pieces (`Array.prototype.join`). -/
def joinSep (sep : List Char) : List (List Char) → List Char
  | [] => []
  | [x] => x
  | x :: xs => x ++ sep ++ joinSep sep xs

/-- Model of `JSON.stringify` of one `{role, content}` turn object. -/
def stringifyTurn (t : Turn) : List Char :=
  '\x7b' :: (jsStringifyString "role" ++ ':' :: jsStringifyString t.role ++
    ',' :: jsStringifyString "content" ++ ':' :: jsStringifyString t.content ++ ['\x7d'])

/-- Model of `JSON.stringify` of the messages array. -/
def stringifyTurns (msgs : List Turn) : List Char :=
  '[' :: (joinSep [','] (msgs.map stringifyTurn) ++ [']'])

/-- A value bound to a template variable, discriminated the way
`replaceTemplateVariables` discriminates with `typeof`: a string (to be
JSON-escaped without outer quotes), the messages array (to be
`JSON.stringify`ed verbatim), or an already-stringified primitive. -/
inductive TValue where
  | strT (s : String)
  | turnsT (msgs : List Turn)
  | primT (s : String)
deriving Repr

/-- The replacement text inserted for one template variable (api.js
lines 354-369). -/
def tvalueText : TValue → List Char
  | .strT s => sliceInner (jsStringifyString s)
  | .turnsT msgs => stringifyTurns msgs
  | .primT s => s.data

/-- The literal search pattern `new RegExp('{{' + name + '}}', 'g')`
(variable names contain no regex metacharacters). -/
def templatePattern (name : String) : List Char :=
  '\x7b' :: '\x7b' :: (name.data ++ ['\x7d', '\x7d'])

/-- Model of `replaceTemplateVariables` (api.js lines 347-373): fold the
replacement pairs in order, each one a global `String.replace` of the
`{{Name}}` pattern by the escaped value. -/
def replaceTemplateVariables (template : String)
    (replacements : List (String × TValue)) : String :=
  replacements.foldl
    (fun result kv =>
      jsReplaceAll result (String.mk (templatePattern kv.1)) (String.mk (tvalueText kv.2)))
    template

/-- Splitter of `String.prototype.split` on a non-empty separator; fuel
is bounded by the input length. -/
def jsSplitGo (sep : List Char) : Nat → List Char → List (List Char)
  | 0, l => [l]
  | fuel + 1, l =>
    match findSub sep l with
    | none => [l]
    | some i => l.take i :: jsSplitGo sep fuel (l.drop (i + sep.length))

/-- Model of `String.prototype.split` for a non-empty separator (every
separator used by the source is non-empty at its call site). -/
def jsSplit (sep l : List Char) : List (List Char) :=
  jsSplitGo sep (l.length + 1) l

/-- Normalization pass `.replace(/\r\n/g, '\n')`. -/
def replCRLF : List Char → List Char
  | '\r' :: '\n' :: r => '\n' :: replCRLF r
  | c :: r => c :: replCRLF r
  | [] => []

/-- Pass `.replace(/\\/g, '\\\\')`: double every backslash. -/
def dblBackslashes : List Char → List Char
  | '\\' :: r => '\\' :: '\\' :: dblBackslashes r
  | c :: r => c :: dblBackslashes r
  | [] => []

/-- Pass `.replace(/\\\\X/g, '\X')` for `X` one of `n`, `t`, `"`:
re-collapse a double-escaped sequence. -/
def fixDblEsc (target : Char) : List Char → List Char
  | '\\' :: '\\' :: c :: r =>
    if c = target then '\\' :: target :: fixDblEsc target r
    else '\\' :: fixDblEsc target ('\\' :: c :: r)
  | c :: r => c :: fixDblEsc target r
  | [] => []

/-- Greedy `\s*` (JavaScript whitespace class). -/
def wsSpan (l : List Char) : List Char := l.dropWhile isJsWs

/-- Pass `.replace(/(['"])\s*:\s*/g, '$1:')`: collapse whitespace around
a colon that follows a quote. -/
def normColonsGo : Nat → List Char → List Char
  | 0, l => l
  | fuel + 1, l =>
    match l with
    | [] => []
    | c :: r =>
      if c = '"' ∨ c.toNat = 39 then
        match wsSpan r with
        | ':' :: r2 => c :: ':' :: normColonsGo fuel (wsSpan r2)
        | _ => c :: normColonsGo fuel r
      else c :: normColonsGo fuel r

/-- Pass `.replace(/,\s*X/g, 'X')` for `X` one of `}`, `]`: drop a
trailing comma. -/
def commaCloseGo (target : Char) : Nat → List Char → List Char
  | 0, l => l
  | _ + 1, [] => []
  | fuel + 1, c :: r =>
    if c = ',' then
      match wsSpan r with
      | d :: r2 =>
        if d = target then target :: commaCloseGo target fuel r2
        else c :: commaCloseGo target fuel r
      | [] => c :: commaCloseGo target fuel r
    else c :: commaCloseGo target fuel r

/-- The repair pipeline of api.js lines 156-164, applied in source
order. -/
def cleanTemplate (l : List Char) : List Char :=
  let s1 := replCRLF l
  let s2 := dblBackslashes s1
  let s3 := fixDblEsc 'n' s2
  let s4 := fixDblEsc 't' s3
  let s5 := fixDblEsc '"' s4
  let s6 := normColonsGo (s5.length + 1) s5
  let s7 := commaCloseGo '\x7d' (s6.length + 1) s6
  commaCloseGo ']' (s7.length + 1) s7

/-- Removal of a single leading byte-order mark
(`.replace(/^﻿/g, "")`). -/
def stripLeadingBOM : List Char → List Char
  | [] => []
  | c :: r => if c.toNat = 0xfeff then r else c :: r

/-- Preprocessing of the filled template before the first parse attempt
(api.js line 120): trim, then strip a leading BOM. -/
def preprocessTemplate (filled : String) : List Char :=
  stripLeadingBOM (jsTrim filled.data)

/-- Model of `substring(0, i) + substring(i + 1)`. -/
def removeCharAt (l : List Char) (i : Nat) : List Char :=
  l.take i ++ l.drop (i + 1)

/-- Which stage of the lenient parse produced the payload. -/
inductive ParseOutcome where
  | strict (payload : JsV)
  | repaired (payload : JsV)
  | fallback (payload : JsV)
deriving Repr

/-- The payload carried by a parse outcome. -/
def ParseOutcome.payload : ParseOutcome → JsV
  | .strict j => j
  | .repaired j => j
  | .fallback j => j

/-- JSON value of one turn, as it appears in the fallback payload. -/
def turnJsV (t : Turn) : JsV :=
  .objV [("role", .strV t.role), ("content", .strV t.content)]

/-- JSON value of the messages array. -/
def msgsJsV (msgs : List Turn) : JsV :=
  .arrV (msgs.map turnJsV)

/-- The fallback payload `{model: model, messages: messages}` built on
api.js lines 189-192. -/
def fallbackPayload (model : String) (messages : List Turn) : JsV :=
  .objV [("model", .strV model), ("messages", msgsJsV messages)]

/-- The lenient parsing stage of `sendMessage` (api.js lines 113-198):
trim and strip a BOM, attempt a strict parse; on failure, if the
reported error position is exactly 467, delete the character at index
467 (the ad hoc branch on lines 147-152), run the repair pipeline, and
attempt a second parse; if that also fails, fall back to
`{model, messages}`.  Every path yields a payload — the outer `catch`
never rethrows. -/
def parsePayloadStage (filledTemplate : String) (model : String)
    (messages : List Turn) : ParseOutcome :=
  let t0 := preprocessTemplate filledTemplate
  match jsonParseE (String.mk t0) with
  | .ok j => .strict j
  | .error errPos =>
    let t1 := if errPos = 467 then removeCharAt t0 467 else t0
    let t2 := cleanTemplate t1
    match jsonParseE (String.mk t2) with
    | .ok j => .repaired j
    | .error _ => .fallback (fallbackPayload model messages)

/-- Canonical array-index reading of a property key, as used by
JavaScript indexed access (`"0"`, `"12"`, but not `"00"` or `"1a"`). -/
def toArrayIndex (key : String) : Option Nat :=
  match key.data with
  | [] => none
  | c :: r =>
    if c = '0' then (if r = [] then some 0 else none)
    else if c.isDigit ∧ r.all Char.isDigit then some (digitsVal (c :: r))
    else none

/-- JavaScript member access `o[key]`: throws (models the `TypeError`)
on `null`/`undefined` receivers, yields `undefined` for missing
properties, supports array and string indexing and `length`. -/
def jsGet : JsV → String → Except String JsV
  | .undefV, key => .error ("Cannot read properties of undefined (reading " ++ key ++ ")")
  | .nullV, key => .error ("Cannot read properties of null (reading " ++ key ++ ")")
  | .objV fields, key => .ok ((lookupField fields key).getD .undefV)
  | .arrV elems, key =>
    if key = "length" then .ok (.numV elems.length)
    else
      match toArrayIndex key with
      | some i => .ok ((elems.get? i).getD .undefV)
      | none => .ok .undefV
  | .strV s, key =>
    if key = "length" then .ok (.numV s.length)
    else
      match toArrayIndex key with
      | some i => .ok (((s.data.get? i).map (fun c => JsV.strV (String.mk [c]))).getD .undefV)
      | none => .ok .undefV
  | _, _ => .ok .undefV

/-- JavaScript truthiness of a value. -/
def jsTruthy : JsV → Bool
  | .undefV => false
  | .nullV => false
  | .boolV b => b
  | .numV q => ¬ q = 0
  | .strV s => ¬ s = ""
  | _ => true

/-- Model of `path.split('.').reduce((o, i) => o[i], data)` (api.js
line 245): sequential member access, which can throw on a
`null`/`undefined` intermediate. -/
def reducePath (data : JsV) (segments : List String) : Except String JsV :=
  segments.foldlM jsGet data

/-- Model of the assignment `payload.messages = messages` (api.js line
204).  Under the guard of `applyMessagesOverwrite` the payload is always
an object here. -/
def jsSetMessages (payload : JsV) (messages : List Turn) : JsV :=
  match payload with
  | .objV fields => .objV (setField fields "messages" (msgsJsV messages))
  | v => v

/-- Model of api.js lines 200-205: when the template does not contain
the `{{MessageHistory}}` placeholder and `payload.messages` is truthy,
overwrite that field with the prepared messages.  The `&&` is
short-circuiting, so `payload.messages` (which throws on a `null`
payload) is only evaluated when the placeholder is absent. -/
def applyMessagesOverwrite (payloadTemplate : String) (payload : JsV)
    (messages : List Turn) : Except String JsV :=
  if containsSub payloadTemplate.data (templatePattern "MessageHistory") then .ok payload
  else
    match jsGet payload "messages" with
    | .error e => .error e
    | .ok mv => .ok (if jsTruthy mv then jsSetMessages payload messages else payload)

/-- The reasoning/answer split of one reply (api.js lines 282-291). -/
structure SplitOut where
  reasoning : String
  answer : String
  markup : String
  raw : String
deriving DecidableEq, Repr

/-- The 100-character preview with ellipsis built for the `truncate`
display mode (api.js lines 298-301). -/
def truncPreview (reasoning : String) : String :=
  if 100 < reasoning.data.length then String.mk (reasoning.data.take 100) ++ "..."
  else reasoning

/-- Shared header of the reasoning markup (api.js lines 303-307 and
314-318), transcribed from the template literal. -/
def reasoningHeaderMarkup : String :=
  "<div class=\"divination-reasoning\">\n          <div class=\"divination-reasoning-header\">\n            <span>AI Reasoning</span>\n            <button class=\"divination-toggle-reasoning\">Show/Hide</button>\n          </div>\n"

/-- Markup built in the `truncate` branch (api.js lines 303-311). -/
def truncMarkup (reasoning answer : String) : String :=
  reasoningHeaderMarkup ++
  "          <div class=\"divination-reasoning-preview\">" ++ truncPreview reasoning ++
  "</div>\n          <div class=\"divination-reasoning-full\" style=\"display: none;\">" ++
  reasoning ++ "</div>\n        </div>\n        <div class=\"divination-response\">" ++
  answer ++ "</div>"

/-- Markup built in the `show` (default) branch (api.js lines
314-321). -/
def showMarkup (reasoning answer : String) : String :=
  reasoningHeaderMarkup ++
  "          <div class=\"divination-reasoning-full\">" ++ reasoning ++
  "</div>\n        </div>\n        <div class=\"divination-response\">" ++
  answer ++ "</div>"

/-- Model of the reasoning post-processing (api.js lines 282-324): when
a reasoning end tag is configured (non-empty with non-empty trim) and
occurs in the reply, split on it, trim both sides, rejoin later
occurrences into the answer, and render according to the display mode
(`hide` leaves the bare answer).  `raw` is always the unmodified
reply. -/
def splitReasoning (reasoningEndTag reasoningDisplay response : String) : SplitOut :=
  if ¬ reasoningEndTag = "" ∧ ¬ jsTrimS reasoningEndTag = "" then
    let parts := jsSplit reasoningEndTag.data response.data
    if 1 < parts.length then
      let reasoning := String.mk (jsTrim (parts.headD []))
      let answer := String.mk (jsTrim (joinSep reasoningEndTag.data parts.tail))
      let markup :=
        if reasoningDisplay = "hide" then answer
        else if reasoningDisplay = "truncate" then truncMarkup reasoning answer
        else showMarkup reasoning answer
      ⟨reasoning, answer, markup, response⟩
    else ⟨"", response, response, response⟩
  else ⟨"", response, response, response⟩

/-- Outcome of one `fetch` attempt, as observed by the retry loop:
a thrown transport error, a non-ok HTTP status, or an ok response whose
JSON body is `data`. -/
inductive FetchOutcome where
  | throwE (e : String)
  | notOk (status : Nat)
  | okJson (data : JsV)

/-- Whether an attempt outcome is a transport failure in the sense of
claim C1 (thrown error or non-success status). -/
def FetchOutcome.isTransportFail : FetchOutcome → Bool
  | .throwE _ => true
  | .notOk _ => true
  | .okJson _ => false

/-- The error message recorded for a failed attempt (api.js lines 233
and 257-258). -/
def FetchOutcome.errMsg : FetchOutcome → String
  | .throwE e => e
  | .notOk status => "HTTP error " ++ toString status
  | .okJson _ => ""

/-- Observable events of the retry loop: an attempt numbered from 1,
and a `setTimeout` pause in milliseconds. -/
inductive Event where
  | attempt (n : Nat)
  | sleep (ms : Nat)
deriving DecidableEq, Repr

/-- The retry loop of api.js lines 218-270: up to 3 attempts; an attempt
fails on a thrown error, a non-ok status, an extraction error (member
access throwing), or a falsy extracted value; after a failed attempt
that is not the last, wait 1000 ms.  Returns the extracted response (if
any), the last recorded error, and the event trace. -/
def retryGo (transport : Nat → FetchOutcome) (pathSegs : List String) (pathStr : String) :
    Nat → Nat → Option String → List Event →
    Option JsV × Option String × List Event
  | 0, _, err, trace => (none, err, trace)
  | fuel + 1, tries, err, trace =>
    let n := tries + 1
    let step : Option JsV × Option String :=
      match transport n with
      | .throwE e => (none, some e)
      | .notOk status => (none, some ("HTTP error " ++ toString status))
      | .okJson data =>
        match reducePath data pathSegs with
        | .error e => (none, some e)
        | .ok v =>
          if jsTruthy v then (some v, err)
          else (none, some ("No content found at path " ++ pathStr))
    match step.1 with
    | some v => (some v, step.2, trace ++ [.attempt n])
    | none =>
      if n < 3 then
        retryGo transport pathSegs pathStr fuel n step.2 (trace ++ [.attempt n, .sleep 1000])
      else (none, step.2, trace ++ [.attempt n])

/-- The `SYSTEM_PROMPT` constant exported by settings.js. -/
def SYSTEM_PROMPT : String :=
  "You are a helpful assistant in a tabletop roleplaying game. Provide concise, useful information and ideas that enhance the game experience. When appropriate, frame your responses in a way that fits within the fantasy setting, but also be clear and direct when giving rules information or practical advice."

/-- The configuration values read from settings at the start of
`sendMessage` (api.js lines 14-22).  The endpoint URL and API key only
affect the transport, which is abstracted as a function of the attempt
number. -/
structure Config where
  globalContext : String
  historyLimit : Int
  payloadTemplate : String
  responseJsonPath : String
  reasoningEndTag : String
  reasoningDisplay : String
  models : String

/-- The caller-supplied parameters of `sendMessage`. -/
structure Params where
  message : String
  history : Option (List Turn)
  model : Option String

/-- Update of the first system turn in place, modelling the mutation of
the object returned by `messages.find` (api.js line 45). -/
def updateFirstSystem (msgs : List Turn) (f : Turn → Turn) : List Turn :=
  match msgs with
  | [] => []
  | m :: rest => if m.role = "system" then f m :: rest else m :: updateFirstSystem rest f

/-- Model of the global-context merge (api.js lines 31-48): when a
non-blank global context is configured, unshift a new system turn if
none exists, otherwise prepend the context to the first system turn's
content unless already contained. -/
def mergeGlobalContext (globalContext : String) (msgs : List Turn) : List Turn :=
  if ¬ globalContext = "" ∧ ¬ jsTrimS globalContext = "" then
    match msgs.find? (fun m => m.role = "system") with
    | none => ⟨"system", globalContext⟩ :: msgs
    | some systemMessage =>
      if containsSub systemMessage.content.data globalContext.data then msgs
      else updateFirstSystem msgs (fun m => ⟨m.role, globalContext ++ "\n\n" ++ m.content⟩)
  else msgs

/-- Scanner for `.replace(/<[^>]*>?/gm, '')` (api.js line 63): from each
`<`, everything up to and including the next `>` (or to the end of the
string) is removed. -/
def stripTagsGo : Bool → List Char → List Char
  | _, [] => []
  | true, c :: r => if c = '>' then stripTagsGo false r else stripTagsGo true r
  | false, c :: r => if c = '<' then stripTagsGo true r else c :: stripTagsGo false r

/-- HTML-tag stripping of a turn's content. -/
def stripTags (l : List Char) : List Char := stripTagsGo false l

/-- Role label used in the flattened context (api.js line 61). -/
def roleLabel (r : String) : String := if r = "user" then "User" else "Assistant"

/-- Model of the flattened conversation context (api.js lines 52-67). -/
def buildContextualHistory (messages : List Turn) : String :=
  if 1 < messages.length then
    let historyMessages := messages.filter (fun m => ¬ m.role = "system")
    if ¬ historyMessages = [] then
      "Previous conversation:\n\n" ++
        String.mk (joinSep "\n\n".data (historyMessages.map (fun m =>
          (roleLabel m.role ++ ": " ++ String.mk (stripTags m.content.data)).data)))
    else ""
  else ""

/-- Effective model (api.js line 25): the caller's, else the first entry
of the configured comma-separated list, trimmed. -/
def resolvedModel (cfg : Config) (params : Params) : String :=
  params.model.getD (jsTrimS (String.mk ((jsSplit [','] cfg.models.data).headD [])))

/-- The history after the in-place preparation steps (api.js lines
28-73): global-context merge, then the new user turn pushed.  When the
caller supplied a history array, that array holds exactly this list
afterwards. -/
def preparedMessages (cfg : Config) (params : Params) : List Turn :=
  mergeGlobalContext cfg.globalContext (params.history.getD []) ++ [⟨"user", params.message⟩]

/-- The history after the truncation step (api.js lines 76-78). -/
def truncatedMessages (cfg : Config) (params : Params) : List Turn :=
  if 0 < cfg.historyLimit then truncList (preparedMessages cfg params) cfg.historyLimit
  else preparedMessages cfg params

/-- The variable bindings built on api.js lines 93-99, in insertion
order. -/
def requestReplacements (cfg : Config) (params : Params) : List (String × TValue) :=
  let contextualHistory := buildContextualHistory
    (mergeGlobalContext cfg.globalContext (params.history.getD []))
  [("Model", .strT (resolvedModel cfg params)),
   ("UserMessage", .strT (if ¬ contextualHistory = "" then
      contextualHistory ++ "\n\nUser: " ++ params.message else params.message)),
   ("MessageHistory", .turnsT (truncatedMessages cfg params)),
   ("SystemMessage", .strT (if ¬ cfg.globalContext = "" then cfg.globalContext
      else SYSTEM_PROMPT)),
   ("Context", .strT contextualHistory)]

/-- The filled template (api.js line 102). -/
def filledTemplateOf (cfg : Config) (params : Params) : String :=
  replaceTemplateVariables cfg.payloadTemplate (requestReplacements cfg params)

/-- The request payload after the lenient parse and the messages
overwrite.  Two source slips can throw here before any HTTP attempt: the
assignment to the `const payloadTemplate` on line 89 (when the template
contains a null character), and the `payload.messages` access on line
201 (when the parsed payload is `null`). -/
def payloadOf (cfg : Config) (params : Params) : Except String JsV :=
  if containsSub cfg.payloadTemplate.data [Char.ofNat 0] then
    .error "Assignment to constant variable."
  else
    applyMessagesOverwrite cfg.payloadTemplate
      ((parsePayloadStage (filledTemplateOf cfg params) (resolvedModel cfg params)
        (truncatedMessages cfg params)).payload)
      (truncatedMessages cfg params)

/-- The result envelope returned on success (api.js lines 332-337). -/
structure Envelope where
  content : String
  rawContent : String
  reasoning : String
  history : List Turn
deriving DecidableEq, Repr

/-- The observable outcome of one `sendMessage` call: the returned
envelope or thrown error, the final contents of the caller's history
array (when one was supplied), and the trace of attempts and pauses. -/
structure SendOutcome where
  result : Except String Envelope
  callerHistory : Option (List Turn)
  trace : List Event
deriving Repr

/-- Model of `sendMessage` (api.js lines 12-338).  The transport maps
the attempt number (from 1) to the observed `fetch` outcome.  A
non-string extracted reply is modelled as the `TypeError` that
`response.split` raises when a reasoning tag is configured; no claim
exercises that corner. -/
def sendMessage (cfg : Config) (params : Params) (transport : Nat → FetchOutcome) :
    SendOutcome :=
  let callerAfterPrep := params.history.map (fun _ => preparedMessages cfg params)
  match payloadOf cfg params with
  | .error e => ⟨.error e, callerAfterPrep, []⟩
  | .ok _payload =>
    let pathSegs := (jsSplit ['.'] cfg.responseJsonPath.data).map String.mk
    let lr := retryGo transport pathSegs cfg.responseJsonPath 3 0 none []
    match lr.1 with
    | none =>
      ⟨.error ((lr.2.1).getD "Failed to get a response from the API"), callerAfterPrep, lr.2.2⟩
    | some v =>
      match v with
      | .strV s =>
        let so := splitReasoning cfg.reasoningEndTag cfg.reasoningDisplay s
        let finalHistory := truncatedMessages cfg params ++ [⟨"you", s⟩]
        let callerFinal := params.history.map (fun _ =>
          if 0 < cfg.historyLimit ∧
             cfg.historyLimit < ((preparedMessages cfg params).length : Int) then
            preparedMessages cfg params
          else finalHistory)
        ⟨.ok ⟨so.markup, s, so.reasoning, finalHistory⟩, callerFinal, lr.2.2⟩
      | _ => ⟨.error "TypeError: response.split is not a function", callerAfterPrep, lr.2.2⟩

/-- The filled template used as counterexample and witness for the C6
claim: a JSON object whose string value contains a literal (unescaped)
newline character. -/
def newlineTemplate : String := "\x7b\"a\":\"x\ny\"\x7d"

/-- The representative template of claim C2: a JSON object with a
single slot written as `"{{X}}"` — the placeholder surrounded by quotes
in the template. -/
def templateQuotedSlot : String := "\x7b\"f\":\"\x7b\x7bX\x7d\x7d\"\x7d"

/-- Observer for claim C2: the string value of a field of a
strictly-parsed JSON object (`none` when the parse fails, the result is
not an object, or the field is missing or not a string). -/
def parsedField (key : String) (s : String) : Option String :=
  match jsonParseE s with
  | .ok (.objV fields) =>
    match lookupField fields key with
    | some (.strV v) => some v
    | _ => none
  | _ => none

/-! ## Claims about history truncation (C3, C4, C10) -/

/-- C10: for every non-array value passed as the `messages` argument
(and any `maxLength`), `truncateMessageHistory` returns the empty list
rather than raising an error or returning the input. -/
theorem claim_C10_nonarray_empty (v : NonArrayValue) (maxLength : Int) :
    truncateMessageHistory (.other v) maxLength = [] := rfl

/-- C3 counterexample: the claim says that for `maxLength ≤ 0` the
truncation helper returns its input unchanged, but
`truncateMessageHistory([u1], -1)` evaluates `slice(1)` and returns
`[]`, not the input. -/
theorem claim_C3_counterexample :
    (-1 : Int) ≤ 0 ∧
    truncList [⟨"user", "u1"⟩] (-1) = [] ∧
    ¬ ([] : List Turn) = [⟨"user", "u1"⟩] := by
  refine ⟨by decide, by decide, by decide⟩

/-- C3 amended: it is the orchestrator that implements the "0 or
negative means unbounded" sentinel — `sendMessage` only calls the
truncation helper when the configured limit is positive, so for
`maxLength ≤ 0` the history passes through the truncation step
unchanged.  (Called directly with `maxLength ≤ 0` and a non-empty list,
the helper itself does trim.) -/
theorem claim_C3_amended (messages : List Turn) (historyLimit : Int)
    (hle : historyLimit ≤ 0) :
    truncateAtCallSite messages historyLimit = messages := by
  unfold truncateAtCallSite
  rw [if_neg (by omega)]

/-- Witness for C3: the amended theorem applied at a concrete input. -/
theorem claim_C3_witness :
    (0 : Int) ≤ 0 ∧ truncateAtCallSite [⟨"user", "x"⟩] 0 = [⟨"user", "x"⟩] :=
  ⟨by decide, claim_C3_amended [⟨"user", "x"⟩] 0 (by decide)⟩

/-- C4: evaluation of the truncation helper at the failing input and at
the claim's positive example.  With `[system, u1]` and `maxLength = 1`
the code computes `slice(-1 * (1 - 1)) = slice(-0) = slice(0)` and so
returns both turns — more than the documented maximum of 1 — instead of
`[system]` as the claim (and the helper's own doc comment) require.
With `maxLength = 3` on the six-turn example the claimed behavior does
hold. -/
theorem claim_C4_code_eval :
    truncList [⟨"system", "S"⟩, ⟨"user", "u1"⟩] 1 =
      [⟨"system", "S"⟩, ⟨"user", "u1"⟩] ∧
    ¬ truncList [⟨"system", "S"⟩, ⟨"user", "u1"⟩] 1 = [⟨"system", "S"⟩] ∧
    truncList [⟨"system", "S"⟩, ⟨"user", "u1"⟩, ⟨"you", "a1"⟩, ⟨"user", "u2"⟩,
        ⟨"you", "a2"⟩, ⟨"user", "u3"⟩] 3 =
      [⟨"system", "S"⟩, ⟨"you", "a2"⟩, ⟨"user", "u3"⟩] := by
  refine ⟨by decide, by decide, by decide⟩

/-! ## Claims about the lenient parse stage (C5, C6) -/

/-- C5: for any filled template string that fails both the strict JSON
parse and the repaired parse (after the error-position-467 surgery and
the cleaning passes), the lenient parsing stage never raises and yields
a payload with exactly the two keys `model` and `messages`, built from
the orchestrator's already-known model and message list. -/
theorem claim_C5_fallback_guarantee (filled model : String) (messages : List Turn)
    (p1 p2 : Nat)
    (h1 : jsonParseE (String.mk (preprocessTemplate filled)) = .error p1)
    (h2 : jsonParseE (String.mk (cleanTemplate
      (if p1 = 467 then removeCharAt (preprocessTemplate filled) 467
       else preprocessTemplate filled))) = .error p2) :
    parsePayloadStage filled model messages = .fallback (fallbackPayload model messages) ∧
    objKeys (parsePayloadStage filled model messages).payload = ["model", "messages"] := by
  unfold parsePayloadStage
  simp only [h1, h2]
  exact ⟨trivial, rfl⟩

/-- Witness for C5: the template `{{{` fails the strict parse at
position 1 and the cleaned template is unchanged and fails again, so the
stage returns the two-key fallback payload. -/
theorem claim_C5_witness :
    parsePayloadStage "\x7b\x7b\x7b" "m" [] = .fallback (fallbackPayload "m" []) ∧
    objKeys (parsePayloadStage "\x7b\x7b\x7b" "m" []).payload = ["model", "messages"] :=
  claim_C5_fallback_guarantee "\x7b\x7b\x7b" "m" [] 1 1 rfl rfl

/-- C6 counterexample: the claim says a filled template with a literal
unescaped newline inside a string value fails strict parsing but
succeeds after the repair pass.  Strict parsing does fail (at the
newline, position 7), but none of the repair passes escapes a raw
newline character, so the repaired parse fails at the same position and
the stage falls back — it does not produce the repaired content the
claim describes. -/
theorem claim_C6_counterexample :
    jsonParseE (String.mk (preprocessTemplate newlineTemplate)) = .error 7 ∧
    jsonParseE (String.mk (cleanTemplate (preprocessTemplate newlineTemplate))) = .error 7 ∧
    parsePayloadStage newlineTemplate "m" [] = .fallback (fallbackPayload "m" []) :=
  ⟨rfl, rfl, rfl⟩

/-- C6 amended: a filled template containing a literal unescaped
newline inside a JSON string value fails the strict parse, is not fixed
by the repair pipeline (which only normalizes line endings, escape
sequences, colon spacing and trailing commas), and therefore makes the
stage return the fallback `{model, messages}` payload. -/
theorem claim_C6_amended (model : String) (messages : List Turn) :
    parsePayloadStage newlineTemplate model messages =
      .fallback (fallbackPayload model messages) := rfl

/-! ## Supporting lemmas -/

theorem lookupField_setField (fields : List (String × JsV)) (k : String) (v : JsV) :
    lookupField (setField fields k v) k = some v := by
  induction fields with
  | nil => simp [setField, lookupField]
  | cons p rest ih =>
    obtain ⟨k', v'⟩ := p
    by_cases h : k' = k
    · simp [setField, lookupField, h]
    · simp [setField, lookupField, h, ih]

theorem jsSplitGo_ne_nil (sep : List Char) (fuel : Nat) (l : List Char) :
    ¬ jsSplitGo sep fuel l = [] := by
  cases fuel with
  | zero => simp [jsSplitGo]
  | succ f =>
    cases h : findSub sep l with
    | none => simp [jsSplitGo, h]
    | some i => simp [jsSplitGo, h]

theorem jsSplit_of_findSub_some (sep l : List Char) (i : Nat)
    (h : findSub sep l = some i) :
    jsSplit sep l = l.take i :: jsSplitGo sep l.length (l.drop (i + sep.length)) := by
  simp [jsSplit, jsSplitGo, h]

theorem jsSplit_of_findSub_none (sep l : List Char)
    (h : findSub sep l = none) : jsSplit sep l = [l] := by
  simp [jsSplit, jsSplitGo, h]

/-! ## Claims about the messages-overwrite step (C9) -/

/-- C9 counterexample: the claim says that whenever the template lacks
the `{{MessageHistory}}` placeholder and the parsed payload has a
`messages` field, that field is overwritten with the prepared history.
A payload whose `messages` field holds JSON `null` has the field, yet
the truthiness guard `payload.messages` skips the overwrite and the
field keeps its `null` value. -/
theorem claim_C9_counterexample :
    containsSub "\x7b\"messages\":null\x7d".data (templatePattern "MessageHistory") = false ∧
    applyMessagesOverwrite "\x7b\"messages\":null\x7d"
      (.objV [("messages", .nullV)]) [⟨"user", "Hi"⟩] = .ok (.objV [("messages", .nullV)]) ∧
    ¬ JsV.nullV = msgsJsV [⟨"user", "Hi"⟩] :=
  ⟨rfl, rfl, fun h => JsV.noConfusion h⟩

/-- C9 amended: for every payload template without the
`{{MessageHistory}}` placeholder, if the parsed payload is an object
whose `messages` field holds a truthy value (any array is truthy; JSON
`null`, `false`, `0` and `""` are not), the orchestrator overwrites that
field with the structured (truncated) conversation history before
issuing the HTTP request. -/
theorem claim_C9_amended (template : String) (fields : List (String × JsV))
    (messages : List Turn) (v : JsV)
    (htmpl : containsSub template.data (templatePattern "MessageHistory") = false)
    (hfield : lookupField fields "messages" = some v)
    (htruthy : jsTruthy v = true) :
    applyMessagesOverwrite template (.objV fields) messages =
      .ok (.objV (setField fields "messages" (msgsJsV messages))) ∧
    lookupField (setField fields "messages" (msgsJsV messages)) "messages" =
      some (msgsJsV messages) := by
  constructor
  · unfold applyMessagesOverwrite
    rw [if_neg (by simp [htmpl])]
    simp [jsGet, hfield, htruthy, jsSetMessages]
  · exact lookupField_setField fields "messages" (msgsJsV messages)

/-- Witness for C9: a template hard-coding `"messages": []` (truthy
empty array) gets its `messages` field overwritten by the prepared
history. -/
theorem claim_C9_witness :
    applyMessagesOverwrite "\x7b\"messages\":[]\x7d"
      (.objV [("messages", .arrV [])]) [⟨"user", "Hi"⟩] =
      .ok (.objV (setField [("messages", .arrV [])] "messages" (msgsJsV [⟨"user", "Hi"⟩]))) ∧
    lookupField (setField [("messages", .arrV [])] "messages" (msgsJsV [⟨"user", "Hi"⟩]))
      "messages" = some (msgsJsV [⟨"user", "Hi"⟩]) :=
  claim_C9_amended "\x7b\"messages\":[]\x7d" [("messages", .arrV [])] [⟨"user", "Hi"⟩]
    (.arrV []) rfl rfl rfl

/-! ## Claims about the reasoning splitter (C7, C8) -/

/-- C8 counterexample: the claim says that in `hide` mode the display
markup is the answer wrapped in a response container.  The `hide` branch
of the source leaves the bare answer with no container at all. -/
theorem claim_C8_counterexample :
    splitReasoning "##" "hide" "r##a" = ⟨"r", "a", "a", "r##a"⟩ ∧
    ¬ ("a" : String) = "<div class=\"divination-response\">a</div>" :=
  ⟨by decide, by decide⟩

/-- C8 amended: for every reply in which the configured delimiter
occurs, when the reasoning display mode is `hide` the display markup is
the bare trimmed answer itself — no response container and no reasoning
content. -/
theorem claim_C8_amended (tag reply : String) (i : Nat)
    (htag : ¬ jsTrimS tag = "")
    (hfound : findSub tag.data reply.data = some i) :
    (splitReasoning tag "hide" reply).markup = (splitReasoning tag "hide" reply).answer := by
  have htag' : ¬ tag = "" := by
    intro h
    exact htag (by simp [h, jsTrimS, jsTrim])
  unfold splitReasoning
  rw [if_pos ⟨htag', htag⟩, jsSplit_of_findSub_some _ _ _ hfound]
  have hlen : 1 < (reply.data.take i :: jsSplitGo tag.data reply.data.length
      (reply.data.drop (i + tag.data.length))).length := by
    have := jsSplitGo_ne_nil tag.data reply.data.length
      (reply.data.drop (i + tag.data.length))
    simp only [List.length_cons]
    have : 0 < (jsSplitGo tag.data reply.data.length
        (reply.data.drop (i + tag.data.length))).length := List.length_pos.mpr this
    omega
  rw [if_pos hlen]
  rfl

/-- Witness for C8: splitting `"r##a"` on `"##"` in `hide` mode gives a
markup equal to the bare answer. -/
theorem claim_C8_witness :
    (splitReasoning "##" "hide" "r##a").markup = (splitReasoning "##" "hide" "r##a").answer :=
  claim_C8_amended "##" "r##a" 1 (by decide) rfl

theorem findSub_decomp (pat : List Char) (hp : ¬ pat = []) :
    ∀ (l : List Char) (i : Nat), findSub pat l = some i →
      l.take i ++ (pat ++ l.drop (i + pat.length)) = l := by
  intro l
  induction l with
  | nil => intro i h; simp [findSub, hp] at h
  | cons c rest ih =>
    intro i h
    unfold findSub at h
    by_cases hpre : pat.isPrefixOf (c :: rest)
    · rw [if_pos hpre] at h
      cases h
      obtain ⟨t, ht⟩ := List.isPrefixOf_iff_prefix.mp hpre
      rw [← ht]
      simp [List.drop_left]
    · rw [if_neg hpre] at h
      obtain ⟨j, hj, hji⟩ := Option.map_eq_some'.mp h
      subst hji
      have hrest := ih j hj
      have harith : j + 1 + pat.length = (j + pat.length) + 1 := by omega
      rw [List.take_succ_cons, harith, List.drop_succ_cons]
      simpa using hrest

theorem findSub_bound (pat : List Char) (hp : ¬ pat = []) :
    ∀ (l : List Char) (i : Nat), findSub pat l = some i →
      i + pat.length ≤ l.length := by
  intro l
  induction l with
  | nil => intro i h; simp [findSub, hp] at h
  | cons c rest ih =>
    intro i h
    unfold findSub at h
    by_cases hpre : pat.isPrefixOf (c :: rest)
    · rw [if_pos hpre] at h
      cases h
      have hle := (List.isPrefixOf_iff_prefix.mp hpre).length_le
      simpa using hle
    · rw [if_neg hpre] at h
      obtain ⟨j, hj, hji⟩ := Option.map_eq_some'.mp h
      subst hji
      have := ih j hj
      simp only [List.length_cons]
      omega

theorem joinSep_cons_of_ne (sep x : List Char) (xs : List (List Char)) (h : ¬ xs = []) :
    joinSep sep (x :: xs) = x ++ sep ++ joinSep sep xs := by
  cases xs with
  | nil => exact absurd rfl h
  | cons y ys => rfl

theorem joinSep_jsSplitGo (sep : List Char) (hp : ¬ sep = []) :
    ∀ (fuel : Nat) (l : List Char), l.length < fuel →
      joinSep sep (jsSplitGo sep fuel l) = l := by
  intro fuel
  induction fuel with
  | zero => intro l h; omega
  | succ f ih =>
    intro l h
    unfold jsSplitGo
    cases hf : findSub sep l with
    | none => rfl
    | some i =>
      have hd := findSub_decomp sep hp l i hf
      have hb := findSub_bound sep hp l i hf
      have hsep1 : 1 ≤ sep.length := by
        cases sep with
        | nil => exact absurd rfl hp
        | cons a t => simp
      rw [joinSep_cons_of_ne _ _ _ (jsSplitGo_ne_nil sep f (l.drop (i + sep.length)))]
      rw [ih (l.drop (i + sep.length)) (by
        simp only [List.length_drop]
        omega)]
      simpa [List.append_assoc] using hd

/-- C7 counterexample: the claim says that whenever the configured
delimiter is non-empty and occurs in the reply, the reply is split on
it.  A whitespace-only delimiter (here a single space) is non-empty and
occurs in `"a b"`, yet the source's `reasoningEndTag.trim() !== ''`
guard skips the split entirely, leaving reasoning empty and the answer
equal to the full reply instead of the claimed `"a"` / `"b"`. -/
theorem claim_C7_counterexample :
    ¬ (" " : String) = "" ∧
    findSub " ".data "a b".data = some 1 ∧
    (splitReasoning " " "show" "a b").reasoning = "" ∧
    (splitReasoning " " "show" "a b").answer = "a b" ∧
    ¬ String.mk (jsTrim ("a b".data.take 1)) = "" :=
  ⟨by decide, by decide, by decide, by decide, by decide⟩

/-- C7 amended: for every reply and configured delimiter, the returned
`rawContent` is the unmodified reply; if the delimiter is empty,
whitespace-only, absent, or does not occur in the reply, reasoning is
empty and the answer is the full reply unchanged; if a delimiter with
non-blank trim occurs (first occurrence at index `i`), reasoning is the
trimmed prefix before it and the answer is the trimmed remainder after
it, with any later literal occurrences of the delimiter rejoined. -/
theorem claim_C7_amended (tag mode reply : String) :
    (splitReasoning tag mode reply).raw = reply ∧
    ((jsTrimS tag = "" ∨ findSub tag.data reply.data = none) →
      (splitReasoning tag mode reply).reasoning = "" ∧
      (splitReasoning tag mode reply).answer = reply) ∧
    (∀ i, findSub tag.data reply.data = some i → ¬ jsTrimS tag = "" →
      (splitReasoning tag mode reply).reasoning = String.mk (jsTrim (reply.data.take i)) ∧
      (splitReasoning tag mode reply).answer =
        String.mk (jsTrim (reply.data.drop (i + tag.data.length)))) := by
  refine ⟨?_, ?_, ?_⟩
  · unfold splitReasoning
    repeat' split
    all_goals simp [apply_ite]
  · intro h
    rcases h with h1 | h2
    · unfold splitReasoning
      rw [if_neg (fun hc => hc.2 h1)]
      exact ⟨rfl, rfl⟩
    · by_cases hcond : ¬ tag = "" ∧ ¬ jsTrimS tag = ""
      · unfold splitReasoning
        rw [if_pos hcond, jsSplit_of_findSub_none _ _ h2]
        rw [if_neg (by simp)]
        exact ⟨rfl, rfl⟩
      · unfold splitReasoning
        rw [if_neg hcond]
        exact ⟨rfl, rfl⟩
  · intro i hfound htag
    have htag' : ¬ tag = "" := by
      intro h
      exact htag (by simp [h, jsTrimS, jsTrim])
    have hsepne : ¬ tag.data = [] := by
      intro h
      exact htag' (by
        cases tag with
        | mk d => simp at h; simp [h])
    unfold splitReasoning
    rw [if_pos ⟨htag', htag⟩, jsSplit_of_findSub_some _ _ _ hfound]
    have hlen : 1 < (reply.data.take i :: jsSplitGo tag.data reply.data.length
        (reply.data.drop (i + tag.data.length))).length := by
      have hne := jsSplitGo_ne_nil tag.data reply.data.length
        (reply.data.drop (i + tag.data.length))
      have : 0 < (jsSplitGo tag.data reply.data.length
          (reply.data.drop (i + tag.data.length))).length := List.length_pos.mpr hne
      simp only [List.length_cons]
      omega
    rw [if_pos hlen]
    have hb := findSub_bound tag.data hsepne reply.data i hfound
    have hsep1 : 1 ≤ tag.data.length := by
      cases htd : tag.data with
      | nil => exact absurd htd hsepne
      | cons a t => simp
    have hjoin := joinSep_jsSplitGo tag.data hsepne reply.data.length
      (reply.data.drop (i + tag.data.length)) (by
        simp only [List.length_drop]
        omega)
    constructor
    · rfl
    · show String.mk (jsTrim (joinSep tag.data (jsSplitGo tag.data reply.data.length
        (reply.data.drop (i + tag.data.length))))) = _
      rw [hjoin]

/-- Witness for C7: splitting `"r1##a1##b"` on `"##"` in `show` mode —
the raw content is unchanged, reasoning is the trimmed prefix `"r1"`,
and the answer `"a1##b"` has the second literal occurrence of the
delimiter rejoined. -/
theorem claim_C7_witness :
    (splitReasoning "##" "show" "r1##a1##b").raw = "r1##a1##b" ∧
    (splitReasoning "##" "show" "r1##a1##b").reasoning =
      String.mk (jsTrim ("r1##a1##b".data.take 2)) ∧
    (splitReasoning "##" "show" "r1##a1##b").answer =
      String.mk (jsTrim ("r1##a1##b".data.drop 4)) := by
  have h := claim_C7_amended "##" "show" "r1##a1##b"
  exact ⟨h.1, (h.2.2 2 rfl (by decide)).1, (h.2.2 2 rfl (by decide)).2⟩

/-! ## Lemmas about the `$`-expansion and JSON escaping (for C2) -/

theorem expandRepl_cons_ne (m b a : List Char) (c : Char) (r : List Char)
    (hc : ¬ c = '$') :
    expandRepl m b a (c :: r) = c :: expandRepl m b a r := by
  rw [expandRepl.eq_def]
  split <;> simp_all

theorem expandRepl_dollar_notspecial (m b a : List Char) (d : Char) (t : List Char)
    (h1 : ¬ d = '$') (h2 : ¬ d = '&') (h3 : ¬ d.toNat = 0x60) (h4 : ¬ d.toNat = 39) :
    expandRepl m b a ('$' :: d :: t) = '$' :: expandRepl m b a (d :: t) := by
  rw [expandRepl.eq_def]
  split
  · simp_all
  · simp_all
  · simp_all
  · rename_i c' r' hna hnb heq
    injection heq with hd0 h
    injection h with hd ht
    subst hd
    subst ht
    rw [if_neg h3, if_neg h4]
  · rename_i hA hB hC heq
    injection heq with h5 h6
    exact (hC d t h5.symm h6.symm).elim

theorem expandRepl_append_noDollar (m b a : List Char) :
    ∀ (x y : List Char), (∀ ch ∈ x, ¬ ch = '$') →
      expandRepl m b a (x ++ y) = x ++ expandRepl m b a y := by
  intro x
  induction x with
  | nil => intro y _; rfl
  | cons c t ih =>
    intro y hx
    have hc : ¬ c = '$' := hx c (List.mem_cons_self c t)
    rw [List.cons_append, expandRepl_cons_ne m b a c (t ++ y) hc]
    rw [ih y (fun ch hch => hx ch (List.mem_cons_of_mem c hch)), List.cons_append]

theorem hexDigitChar_ne_dollar (n : Nat) (h : n < 16) : ¬ hexDigitChar n = '$' := by
  interval_cases n <;> decide

/-- Full case enumeration of `escChar`, recording which source character
produced each output shape. -/
theorem escChar_cases (c : Char) :
    (c = '"' ∧ escChar c = ['\\', '"']) ∨
    (c = '\\' ∧ escChar c = ['\\', '\\']) ∨
    (c = '\x08' ∧ escChar c = ['\\', 'b']) ∨
    (c = '\x0c' ∧ escChar c = ['\\', 'f']) ∨
    (c = '\n' ∧ escChar c = ['\\', 'n']) ∨
    (c = '\r' ∧ escChar c = ['\\', 'r']) ∨
    (c = '\t' ∧ escChar c = ['\\', 't']) ∨
    (¬ c = '"' ∧ ¬ c = '\\' ∧ c.toNat < 0x20 ∧ escChar c =
      ['\\', 'u', '0', '0', hexDigitChar (c.toNat / 16), hexDigitChar (c.toNat % 16)]) ∨
    (¬ c = '"' ∧ ¬ c = '\\' ∧ ¬ c.toNat < 0x20 ∧ escChar c = [c]) := by
  by_cases h1 : c = '"'
  · exact Or.inl ⟨h1, by subst h1; rfl⟩
  by_cases h2 : c = '\\'
  · exact Or.inr (Or.inl ⟨h2, by subst h2; rfl⟩)
  by_cases h3 : c = '\x08'
  · exact Or.inr (Or.inr (Or.inl ⟨h3, by subst h3; rfl⟩))
  by_cases h4 : c = '\x0c'
  · exact Or.inr (Or.inr (Or.inr (Or.inl ⟨h4, by subst h4; rfl⟩)))
  by_cases h5 : c = '\n'
  · exact Or.inr (Or.inr (Or.inr (Or.inr (Or.inl ⟨h5, by subst h5; rfl⟩))))
  by_cases h6 : c = '\r'
  · exact Or.inr (Or.inr (Or.inr (Or.inr (Or.inr (Or.inl ⟨h6, by subst h6; rfl⟩)))))
  by_cases h7 : c = '\t'
  · exact Or.inr (Or.inr (Or.inr (Or.inr (Or.inr (Or.inr (Or.inl
      ⟨h7, by subst h7; rfl⟩))))))
  by_cases h8 : c.toNat < 0x20
  · refine Or.inr (Or.inr (Or.inr (Or.inr (Or.inr (Or.inr (Or.inr (Or.inl
      ⟨h1, h2, h8, ?_⟩)))))))
    unfold escChar
    rw [if_neg h1, if_neg h2, if_neg h3, if_neg h4, if_neg h5, if_neg h6, if_neg h7,
      if_pos h8]
  · refine Or.inr (Or.inr (Or.inr (Or.inr (Or.inr (Or.inr (Or.inr (Or.inr
      ⟨h1, h2, h8, ?_⟩)))))))
    unfold escChar
    rw [if_neg h1, if_neg h2, if_neg h3, if_neg h4, if_neg h5, if_neg h6, if_neg h7,
      if_neg h8]

theorem escChar_noDollar (c : Char) (hc : ¬ c = '$') :
    ∀ ch ∈ escChar c, ¬ ch = '$' := by
  intro ch hch
  rcases escChar_cases c with ⟨_, h⟩ | ⟨_, h⟩ | ⟨_, h⟩ | ⟨_, h⟩ | ⟨_, h⟩ | ⟨_, h⟩ |
    ⟨_, h⟩ | ⟨_, _, hlt, h⟩ | ⟨_, _, _, h⟩
  · rw [h] at hch; simp at hch; rcases hch with rfl | rfl <;> decide
  · rw [h] at hch; simp at hch; subst hch; decide
  · rw [h] at hch; simp at hch; rcases hch with rfl | rfl <;> decide
  · rw [h] at hch; simp at hch; rcases hch with rfl | rfl <;> decide
  · rw [h] at hch; simp at hch; rcases hch with rfl | rfl <;> decide
  · rw [h] at hch; simp at hch; rcases hch with rfl | rfl <;> decide
  · rw [h] at hch; simp at hch; rcases hch with rfl | rfl <;> decide
  · rw [h] at hch
    simp at hch
    rcases hch with rfl | rfl | rfl | rfl | rfl
    · decide
    · decide
    · decide
    · exact hexDigitChar_ne_dollar (c.toNat / 16) (by omega)
    · exact hexDigitChar_ne_dollar (c.toNat % 16) (by omega)
  · rw [h] at hch
    simp at hch
    subst hch
    exact hc

theorem hasDollarPat_cons_ne (c : Char) (r : List Char) (hc : ¬ c = '$') :
    hasDollarPat (c :: r) = hasDollarPat r := by
  rw [hasDollarPat.eq_def]
  split <;> simp_all

theorem expandRepl_escBody (m b a : List Char) :
    ∀ (s : List Char), hasDollarPat s = false →
      expandRepl m b a (escBody s) = escBody s := by
  intro s
  induction s with
  | nil => intro _; rfl
  | cons c rest ih =>
    intro h
    by_cases hc : c = '$'
    · subst hc
      cases rest with
      | nil => rfl
      | cons c2 r2 =>
        have hred : hasDollarPat ('$' :: c2 :: r2) =
            ((decide (c2 = '$' ∨ c2 = '&' ∨ c2.toNat = 0x60 ∨ c2.toNat = 39)) ||
              hasDollarPat (c2 :: r2)) := rfl
        rw [hred] at h
        simp only [Bool.or_eq_false_iff, decide_eq_false_iff_not] at h
        have hs1 : ¬ c2 = '$' := fun hx => h.1 (Or.inl hx)
        have hs2 : ¬ c2 = '&' := fun hx => h.1 (Or.inr (Or.inl hx))
        have hs3 : ¬ c2.toNat = 0x60 := fun hx => h.1 (Or.inr (Or.inr (Or.inl hx)))
        have hs4 : ¬ c2.toNat = 39 := fun hx => h.1 (Or.inr (Or.inr (Or.inr hx)))
        show expandRepl m b a (escChar '$' ++ escBody (c2 :: r2)) = _
        have he : escChar '$' = ['$'] := rfl
        rw [he]
        have hsplit : ∃ d t2, escBody (c2 :: r2) = d :: t2 ∧
            ¬ d = '$' ∧ ¬ d = '&' ∧ ¬ d.toNat = 0x60 ∧ ¬ d.toNat = 39 := by
          rcases escChar_cases c2 with ⟨_, hf⟩ | ⟨_, hf⟩ | ⟨_, hf⟩ | ⟨_, hf⟩ | ⟨_, hf⟩ |
            ⟨_, hf⟩ | ⟨_, hf⟩ | ⟨_, _, _, hf⟩ | ⟨_, _, _, hf⟩
          · exact ⟨'\\', '"' :: escBody r2,
              by show escChar c2 ++ escBody r2 = _; rw [hf]; rfl,
              by decide, by decide, by decide, by decide⟩
          · exact ⟨'\\', '\\' :: escBody r2,
              by show escChar c2 ++ escBody r2 = _; rw [hf]; rfl,
              by decide, by decide, by decide, by decide⟩
          · exact ⟨'\\', 'b' :: escBody r2,
              by show escChar c2 ++ escBody r2 = _; rw [hf]; rfl,
              by decide, by decide, by decide, by decide⟩
          · exact ⟨'\\', 'f' :: escBody r2,
              by show escChar c2 ++ escBody r2 = _; rw [hf]; rfl,
              by decide, by decide, by decide, by decide⟩
          · exact ⟨'\\', 'n' :: escBody r2,
              by show escChar c2 ++ escBody r2 = _; rw [hf]; rfl,
              by decide, by decide, by decide, by decide⟩
          · exact ⟨'\\', 'r' :: escBody r2,
              by show escChar c2 ++ escBody r2 = _; rw [hf]; rfl,
              by decide, by decide, by decide, by decide⟩
          · exact ⟨'\\', 't' :: escBody r2,
              by show escChar c2 ++ escBody r2 = _; rw [hf]; rfl,
              by decide, by decide, by decide, by decide⟩
          · exact ⟨'\\', 'u' :: '0' :: '0' :: hexDigitChar (c2.toNat / 16) ::
              hexDigitChar (c2.toNat % 16) :: escBody r2,
              by show escChar c2 ++ escBody r2 = _; rw [hf]; rfl,
              by decide, by decide, by decide, by decide⟩
          · exact ⟨c2, escBody r2,
              by show escChar c2 ++ escBody r2 = _; rw [hf]; rfl,
              hs1, hs2, hs3, hs4⟩
        obtain ⟨d, t2, hdt, hd1, hd2, hd3, hd4⟩ := hsplit
        show expandRepl m b a ('$' :: escBody (c2 :: r2)) = '$' :: escBody (c2 :: r2)
        rw [hdt, expandRepl_dollar_notspecial m b a d t2 hd1 hd2 hd3 hd4, ← hdt,
          ih h.2]
    · have hrest : hasDollarPat rest = false := by
        rw [hasDollarPat_cons_ne c rest hc] at h
        exact h
      show expandRepl m b a (escChar c ++ escBody rest) = _
      rw [expandRepl_append_noDollar m b a (escChar c) (escBody rest)
        (escChar_noDollar c hc), ih hrest]
      rfl

/-! ## Round trip of JSON string escaping through the strict parser -/

theorem hexVal_hexDigitChar (n : Nat) (h : n < 16) :
    hexVal (hexDigitChar n) = some n := by
  interval_cases n <;> decide

theorem parseStrBody_escBody :
    ∀ (l rest : List Char), parseStrBody (escBody l ++ '"' :: rest) = .ok (l, rest) := by
  intro l
  induction l with
  | nil => intro rest; rfl
  | cons c t ih =>
    intro rest
    show parseStrBody ((escChar c ++ escBody t) ++ '"' :: rest) = _
    rw [List.append_assoc]
    rcases escChar_cases c with ⟨hcv, hf⟩ | ⟨hcv, hf⟩ | ⟨hcv, hf⟩ | ⟨hcv, hf⟩ |
      ⟨hcv, hf⟩ | ⟨hcv, hf⟩ | ⟨hcv, hf⟩ | ⟨hq, hb, hlt, hf⟩ | ⟨hq, hb, hlt, hf⟩
    · subst hcv; rw [hf]; simp [parseStrBody, escMap, ih rest, Except.map]
    · subst hcv; rw [hf]; simp [parseStrBody, escMap, ih rest, Except.map]
    · subst hcv; rw [hf]; simp [parseStrBody, escMap, ih rest, Except.map]
    · subst hcv; rw [hf]; simp [parseStrBody, escMap, ih rest, Except.map]
    · subst hcv; rw [hf]; simp [parseStrBody, escMap, ih rest, Except.map]
    · subst hcv; rw [hf]; simp [parseStrBody, escMap, ih rest, Except.map]
    · subst hcv; rw [hf]; simp [parseStrBody, escMap, ih rest, Except.map]
    · rw [hf]
      show parseStrBody ('\\' :: 'u' :: '0' :: '0' ::
        hexDigitChar (c.toNat / 16) :: hexDigitChar (c.toNat % 16) ::
        (escBody t ++ '"' :: rest)) = _
      rw [parseStrBody.eq_def]
      simp only [hexVal_hexDigitChar (c.toNat / 16) (by omega),
        hexVal_hexDigitChar (c.toNat % 16) (by omega)]
      have hv : hexVal '0' = some 0 := rfl
      simp only [hv]
      have hn : ((0 * 16 + 0) * 16 + c.toNat / 16) * 16 + c.toNat % 16 = c.toNat := by
        omega
      rw [hn, Char.ofNat_toNat, ih rest]
      rfl
    · rw [hf]
      show parseStrBody (c :: (escBody t ++ '"' :: rest)) = _
      rw [parseStrBody.eq_def]
      split
      · rename_i heq
        exact absurd heq (by simp)
      · rename_i heq
        injection heq with hh _
        exact absurd hh hb
      · rename_i heq
        injection heq with hh _
        exact absurd hh hb
      · rename_i c' r' heq
        injection heq with hh ht'
        subst hh
        rw [if_neg hq, if_neg (by omega : ¬ c.toNat < 0x20), ← ht', ih rest]
        rfl

theorem parseValue_objOneStr (f : Nat) (bs cs : List Char)
    (hbs : parseStrBody bs = .ok (cs, ['\x7d'])) :
    parseValue (f + 1 + 1) ('\x7b' :: '"' :: 'f' :: '"' :: ':' :: '"' :: bs) =
      .ok (.objV [("f", .strV (String.mk cs))], []) := by
  simp [parseValue, parseMembersLoop, parseStrBody, skipWs, hbs, escMap, setField,
    Except.map]

theorem jsonParseE_objOneStr (bs cs : List Char)
    (hbs : parseStrBody bs = .ok (cs, ['\x7d'])) :
    jsonParseE (String.mk ('\x7b' :: '"' :: 'f' :: '"' :: ':' :: '"' :: bs)) =
      .ok (.objV [("f", .strV (String.mk cs))]) := by
  have hv := parseValue_objOneStr (bs.length + 5) bs cs hbs
  simp only [jsonParseE]
  rw [show ('\x7b' :: '"' :: 'f' :: '"' :: ':' :: '"' :: bs).length + 1 =
    bs.length + 5 + 1 + 1 from by simp only [List.length_cons]]
  rw [show skipWs ('\x7b' :: '"' :: 'f' :: '"' :: ':' :: '"' :: bs) =
    ('\x7b' :: '"' :: 'f' :: '"' :: ':' :: '"' :: bs) from rfl]
  rw [hv]
  rfl

/-! ## Claims about the template engine round trip (C2) -/

/-- C2 counterexample: the claim says the fill-then-parse round trip
yields back every string exactly.  The engine uses
`String.prototype.replace` with a plain replacement string, in which `$&`
is a substitution pattern for the matched text: filling the quoted slot
with `"$&"` produces the literal text `{{X}}` as the field value, not
`"$&"`. -/
theorem claim_C2_counterexample :
    parsedField "f" (replaceTemplateVariables templateQuotedSlot [("X", .strT "$&")]) =
      some "\x7b\x7bX\x7d\x7d" ∧
    ¬ (("\x7b\x7bX\x7d\x7d" : String) = "$&") :=
  ⟨rfl, by decide⟩

/-- C2 amended: for every string `s` that contains no `$` immediately
followed by one of `$`, `&`, backquote or `'` (the substitution patterns
of `String.prototype.replace`), filling the quoted template slot
`"{{X}}"` with `s` via `replaceTemplateVariables` and strict-JSON-parsing
the result yields exactly `s` as the field value — in particular for all
strings containing quotes, backslashes, and newlines. -/
theorem claim_C2_amended (s : String) (hs : hasDollarPat s.data = false) :
    parsedField "f" (replaceTemplateVariables templateQuotedSlot [("X", .strT s)]) =
      some s := by
  have htv : tvalueText (.strT s) = escBody s.data := by
    show sliceInner (jsStringifyString s) = _
    simp [sliceInner, jsStringifyString, List.dropLast_concat]
  have hfill : replaceTemplateVariables templateQuotedSlot [("X", .strT s)] =
      String.mk ('\x7b' :: '"' :: 'f' :: '"' :: ':' :: '"' ::
        (expandRepl (templatePattern "X") ['\x7b', '"', 'f', '"', ':', '"'] ['"', '\x7d']
          (tvalueText (.strT s)) ++ ['"', '\x7d'])) := rfl
  rw [hfill, htv, expandRepl_escBody _ _ _ s.data hs]
  have hparse := jsonParseE_objOneStr (escBody s.data ++ ['"', '\x7d']) s.data
    (by
      rw [show (escBody s.data ++ ['"', '\x7d']) = escBody s.data ++ '"' :: ['\x7d']
        from rfl]
      exact parseStrBody_escBody s.data ['\x7d'])
  unfold parsedField
  rw [show ('\x7b' :: '"' :: 'f' :: '"' :: ':' :: '"' ::
    (escBody s.data ++ ['"', '\x7d'])) =
    ('\x7b' :: '"' :: 'f' :: '"' :: ':' :: '"' :: (escBody s.data ++ ['"', '\x7d']))
    from rfl]
  rw [hparse]
  simp [lookupField]

/-- Witness for C2: the amended theorem applied to a string containing
a quote, a backslash, and a newline. -/
theorem claim_C2_witness :
    parsedField "f" (replaceTemplateVariables templateQuotedSlot
      [("X", .strT "a\"b\\c\nd")]) = some "a\"b\\c\nd" :=
  claim_C2_amended "a\"b\\c\nd" (by decide)

/-! ## Claims about the retry loop and history mutation (C1) -/

theorem retryGo_fail_step (transport : Nat → FetchOutcome) (pathSegs : List String)
    (pathStr : String) (fuel tries : Nat) (err : Option String) (trace : List Event)
    (hf : (transport (tries + 1)).isTransportFail = true) :
    retryGo transport pathSegs pathStr (fuel + 1) tries err trace =
      if tries + 1 < 3 then
        retryGo transport pathSegs pathStr fuel (tries + 1)
          (some ((transport (tries + 1)).errMsg))
          (trace ++ [.attempt (tries + 1), .sleep 1000])
      else (none, some ((transport (tries + 1)).errMsg), trace ++ [.attempt (tries + 1)]) := by
  rcases ht : transport (tries + 1) with e | s | d
  · simp [retryGo, ht, FetchOutcome.errMsg]
  · simp [retryGo, ht, FetchOutcome.errMsg]
  · rw [ht] at hf
    simp [FetchOutcome.isTransportFail] at hf

theorem retryGo_allFail (transport : Nat → FetchOutcome) (pathSegs : List String)
    (pathStr : String)
    (h1 : (transport 1).isTransportFail = true)
    (h2 : (transport 2).isTransportFail = true)
    (h3 : (transport 3).isTransportFail = true) :
    retryGo transport pathSegs pathStr 3 0 none [] =
      (none, some ((transport 3).errMsg),
        [.attempt 1, .sleep 1000, .attempt 2, .sleep 1000, .attempt 3]) := by
  show retryGo transport pathSegs pathStr (2 + 1) 0 none [] = _
  rw [retryGo_fail_step transport pathSegs pathStr 2 0 none [] h1]
  rw [if_pos (by omega : (0 : Nat) + 1 < 3)]
  show retryGo transport pathSegs pathStr (1 + 1) 1 _ _ = _
  rw [retryGo_fail_step transport pathSegs pathStr 1 1 _ _ h2]
  rw [if_pos (by omega : (1 : Nat) + 1 < 3)]
  show retryGo transport pathSegs pathStr (0 + 1) 2 _ _ = _
  rw [retryGo_fail_step transport pathSegs pathStr 0 2 _ _ h3]
  rw [if_neg (by omega : ¬ ((2 : Nat) + 1 < 3))]
  rfl

/-- C1 counterexample: the claim says that when every transport attempt
fails, the caller's history array is left unchanged from its pre-call
state.  With an empty supplied history and a transport that always
returns HTTP 500, the caller's array ends up holding the new user turn —
`sendMessage` pushes it before the first attempt and the mutation is in
place. -/
theorem claim_C1_counterexample :
    (sendMessage ⟨"", 0, "\x7b\x7d", "r", "", "show", "m"⟩ ⟨"Hi", some [], none⟩
      (fun _ => .notOk 500)).callerHistory = some [⟨"user", "Hi"⟩] ∧
    ¬ (some [(⟨"user", "Hi"⟩ : Turn)] = some ([] : List Turn)) :=
  ⟨rfl, by decide⟩

/-- C1 amended: for a transport that fails on every attempt (non-success
HTTP status or a thrown transport error), and a call whose payload
preparation does not itself throw, `sendMessage` makes exactly 3
attempts with a 1000 ms pause between consecutive attempts and surfaces
the last observed error; the caller's history array is however not left
at its pre-call state: it ends holding the (possibly global-context
merged) history plus the newly pushed user turn — only the assistant
turn is withheld on failure. -/
theorem claim_C1_amended (cfg : Config) (params : Params)
    (transport : Nat → FetchOutcome) (h : List Turn) (p : JsV)
    (hh : params.history = some h)
    (hp : payloadOf cfg params = .ok p)
    (hfail : ∀ n, 1 ≤ n → n ≤ 3 → (transport n).isTransportFail = true) :
    (sendMessage cfg params transport).result = .error ((transport 3).errMsg) ∧
    (sendMessage cfg params transport).trace =
      [.attempt 1, .sleep 1000, .attempt 2, .sleep 1000, .attempt 3] ∧
    (sendMessage cfg params transport).callerHistory =
      some (mergeGlobalContext cfg.globalContext h ++ [⟨"user", params.message⟩]) := by
  have hr := retryGo_allFail transport
    ((jsSplit ['.'] cfg.responseJsonPath.data).map String.mk) cfg.responseJsonPath
    (hfail 1 (by omega) (by omega)) (hfail 2 (by omega) (by omega))
    (hfail 3 (by omega) (by omega))
  unfold sendMessage
  simp only [hp, hr]
  refine ⟨by simp, by simp, ?_⟩
  simp [preparedMessages, hh]

/-- Witness for C1: a transport that always returns HTTP 500, an empty
history and a trivial `{}` template — 3 attempts, two 1000 ms pauses,
the last HTTP error surfaced, and the user turn in the caller's
history. -/
theorem claim_C1_witness :
    (sendMessage ⟨"", 0, "\x7b\x7d", "r", "", "show", "m"⟩ ⟨"Hi", some [], none⟩
      (fun _ => .notOk 500)).result = .error "HTTP error 500" ∧
    (sendMessage ⟨"", 0, "\x7b\x7d", "r", "", "show", "m"⟩ ⟨"Hi", some [], none⟩
      (fun _ => .notOk 500)).trace =
      [.attempt 1, .sleep 1000, .attempt 2, .sleep 1000, .attempt 3] ∧
    (sendMessage ⟨"", 0, "\x7b\x7d", "r", "", "show", "m"⟩ ⟨"Hi", some [], none⟩
      (fun _ => .notOk 500)).callerHistory =
      some (mergeGlobalContext "" [] ++ [⟨"user", "Hi"⟩]) :=
  claim_C1_amended ⟨"", 0, "\x7b\x7d", "r", "", "show", "m"⟩ ⟨"Hi", some [], none⟩
    (fun _ => .notOk 500) [] (.objV []) rfl rfl (fun _ _ _ => rfl)

end Divination
